import Mathlib

/-!
Verification of the cbz-merger pipeline (src/merge.py) against its
natural-language specification.  Every definition below is a shallow
embedding of the corresponding Python function, translated from the
source; filesystem paths are modelled by the file names they denote and
the contents written to them, machine integers by Int/Nat, and fallible
code by Except/Option.
-/

namespace CbzMerger

/-- Error outcomes of the embedded Python code.  `indexError` models the
IndexError raised by `imgs[0]` on an empty list, `typeError` models the
TypeError raised by subscripting `None` (a failed `re.search`).
`patternMismatchError` and `configurationError` are the error classes the
spec's taxonomy names; they exist so that statements can compare the
code's behaviour with the spec's; the code itself never raises them. -/
inductive PyErr where
  | indexError
  | typeError
  | patternMismatchError
  | configurationError
deriving DecidableEq

/-! ## Natural sort (the `natsorted` library call)

`natsorted` splits each string into maximal runs of digits and
non-digits; digit runs compare by numeric value, other runs compare
lexicographically by code point.  A key that is a strict prefix of
another sorts first.  Because every token is a non-empty run, a digit
run and a non-digit run can only meet positionally when one string has a
digit where the other has not; `natsort` resolves this by padding keys
with an empty string so that the number sorts first, which for non-empty
tokens is exactly `num < str`, as encoded in `tokLt`. -/

/-- One token of a natural-sort key: a maximal run of non-digits (kept as
its characters) or a maximal run of digits (kept as its characters, and
compared through `digitsVal`). -/
inductive NatTok where
  | str : List Char → NatTok
  | num : List Char → NatTok
deriving DecidableEq

/-- Numeric value of a digit run (what Python's `int` yields on it). -/
def digitsVal (ds : List Char) : Nat :=
  ds.foldl (fun a c => a * 10 + (c.toNat - 48)) 0

/-- Lexicographic comparison of character lists by code point, the
comparison Python uses on `str`. -/
def charListLt : List Char → List Char → Bool
  | [], [] => false
  | [], _ :: _ => true
  | _ :: _, [] => false
  | a :: as, b :: bs => if a < b then true else if a = b then charListLt as bs else false

/-- Tokenize a string into alternating maximal digit / non-digit runs. -/
def natTokens : List Char → List NatTok
  | [] => []
  | c :: cs =>
    let ts := natTokens cs
    if c.isDigit then
      match ts with
      | .num ds :: ts => .num (c :: ds) :: ts
      | ts => .num [c] :: ts
    else
      match ts with
      | .str s :: ts => .str (c :: s) :: ts
      | ts => .str [c] :: ts

/-- Strict comparison of tokens.  Digit runs compare numerically (so a
leading zero is ignored); a digit run sorts before a non-digit run. -/
def tokLt : NatTok → NatTok → Bool
  | .num a, .num b => decide (digitsVal a < digitsVal b)
  | .num _, .str _ => true
  | .str _, .num _ => false
  | .str a, .str b => charListLt a b

/-- Equivalence of tokens under the natural-sort key (digit runs with the
same numeric value are equivalent). -/
def tokEqv : NatTok → NatTok → Bool
  | .num a, .num b => decide (digitsVal a = digitsVal b)
  | .str a, .str b => decide (a = b)
  | _, _ => false

/-- Strict lexicographic comparison of token lists; a proper prefix
sorts first. -/
def keyLt : List NatTok → List NatTok → Bool
  | [], [] => false
  | [], _ :: _ => true
  | _ :: _, [] => false
  | a :: as, b :: bs => if tokLt a b then true else if tokEqv a b then keyLt as bs else false

/-- The natural-sort strict order on strings. -/
def natLess (a b : String) : Bool :=
  keyLt (natTokens a.data) (natTokens b.data)

/-- `natsorted`: stable sort of a list of strings under the natural
order.  Insertion sort under the reflexive relation `¬ b < a` places an
element before the first strictly greater one, which is the stable order
Python's sort produces. -/
def natsorted (l : List String) : List String :=
  l.insertionSort (fun a b => natLess b a = false)

/-! ## `os.path.splitext` (the extension a file name keeps) -/

/-- Scan for the extension: it is the suffix starting at the last dot
that has a non-dot character somewhere before it (Python's
`os.path.splitext` rule); `seen` records whether a non-dot character has
occurred so far. -/
def pyExtGo : List Char → Bool → List Char
  | [], _ => []
  | c :: cs, seen =>
    if c = '.' then
      let r := pyExtGo cs seen
      if r = [] then (if seen then c :: cs else []) else r
    else pyExtGo cs true

/-- The extension component of `os.path.splitext` on a file name. -/
def pyExt (s : String) : String :=
  String.mk (pyExtGo s.data false)

/-! ## Path Partitioner (`groupZips` / `groupDirs`, src/merge.py:363-373, 421)

`groupZips(zips, n)` is the comprehension `[zips[i::n] for i in range(n)]`.
For `n ≤ 0` the comprehension ranges over nothing and the value is `[]`
(the slice expression is never evaluated, so no exception can occur). -/

/-- Python's extended slice `l[start::step]` for `step ≥ 1`: the elements
at positions `start, start+step, start+2*step, …`. -/
def sliceStep : List α → Nat → Nat → List α
  | [], _, _ => []
  | x :: xs, 0, n => x :: sliceStep xs (n - 1) n
  | _ :: xs, i + 1, n => sliceStep xs i n

/-- `groupZips(zips, n) = [zips[i::n] for i in range(n)]`.  The count is
an `Int` because Python integers are signed; `range n` is empty when
`n ≤ 0`. -/
def groupZips (zips : List α) (n : Int) : List (List α) :=
  (List.range n.toNat).map (fun i => sliceStep zips i n.toNat)

/-- `groupDirs` is an alias of `groupZips` in the source (line 421). -/
def groupDirs (dirs : List α) (n : Int) : List (List α) :=
  groupZips dirs n

/-- Round-robin interleaving of a family of lists: repeatedly take the
head of each non-empty list in turn.  This is the spec's notion of the
interleaving that must reconstitute the partitioned list (spec §4.1);
it is the comparison point for the Partitioner, not code of the repo. -/
def roundRobin : List (List α) → List α
  | [] => []
  | [] :: gs => roundRobin gs
  | (x :: g) :: gs => x :: roundRobin (gs ++ [g])
termination_by gs => (gs.map (fun g => g.length + 1)).sum
decreasing_by
  all_goals simp [List.map_append, List.sum_append]
  omega

/-! ## Chunked Merger (`segmentImgs`, `makeTempPdf`, `mergeImages`,
`makeVolume`, src/merge.py:134-242, 385-418) -/

/-- Python's slice `l[0:i]` with a possibly negative bound. -/
def pySliceTo (l : List α) (i : Int) : List α :=
  if 0 ≤ i then l.take i.toNat else l.take ((l.length : Int) + i).toNat

/-- Python's slice `l[i:]` with a possibly negative bound. -/
def pySliceFrom (l : List α) (i : Int) : List α :=
  if 0 ≤ i then l.drop i.toNat else l.drop ((l.length : Int) + i).toNat

/-- `segmentImgs(imgs, cap)` (src/merge.py:231-242):
`if len(imgs) <= cap: return [imgs]` else
`[imgs[0:cap]] + segmentImgs(imgs[cap:], cap)`.
The Python recursion is unbounded for `cap ≤ 0`, so the embedding
carries explicit fuel and returns `none` exactly when the recursion has
not reached its base case within `fuel` unfoldings; on terminating
inputs any fuel above the recursion depth gives `some`. -/
def segmentImgsF : Nat → List α → Int → Option (List (List α))
  | 0, _, _ => none
  | fuel + 1, imgs, cap =>
    if (imgs.length : Int) ≤ cap then some [imgs]
    else (segmentImgsF fuel (pySliceFrom imgs cap) cap).map (fun r => pySliceTo imgs cap :: r)

/-- The state of a `pypdf.PdfWriter`: the ordered list of source
documents appended so far.  Every appended source is held open until the
writer is written out, so the number of simultaneously composed sources
at write time is the length of `appended`. -/
structure PdfWriterState (β : Type) where
  appended : List β

/-- `merger.append(x)`. -/
def PdfWriterState.append (s : PdfWriterState β) (x : β) : PdfWriterState β :=
  ⟨s.appended ++ [x]⟩

/-- Number of sources the writer holds open at write time. -/
def PdfWriterState.openCount (s : PdfWriterState β) : Nat :=
  s.appended.length

/-- `merger = PdfWriter(); for img in imgs: merger.append(img)` — the
writer state built by `makeTempPdf` and by the pdf branch of
`makeVolume`. -/
def pdfAppendAll (imgs : List β) : PdfWriterState β :=
  imgs.foldl PdfWriterState.append ⟨[]⟩

/-- `makeTempPdf(path, imgs)` (src/merge.py:385-397): the content of the
temporary file written at `path` is the ordered list of appended units. -/
def makeTempPdfContents (imgs : List β) : List β :=
  (pdfAppendAll imgs).appended

/-- The writer state `makeVolume` builds in its pdf branch
(src/merge.py:408-413). -/
def makeVolumePdfWriter (imgs : List β) : PdfWriterState β :=
  pdfAppendAll imgs

/-- `makeVolume(path, isPdf, imgs)` (src/merge.py:400-418): the unit
sequence stored in the artifact written at `path` (pdf branch appends
each unit to one writer; zip branch writes each unit in order). -/
def makeVolumeContents (isPdf : Bool) (imgs : List β) : List β :=
  if isPdf then (makeVolumePdfWriter imgs).appended else imgs

/-- The cleanup loop `while queue: os.remove(queue.pop())`
(src/merge.py:220-221): pop (and delete) the last element until the
queue is empty.  Removing the last element repeatedly is removing the
head of the reversed queue repeatedly; the function returns the final
queue (the temporary files still present). -/
def cleanupRev : List γ → List γ
  | [] => []
  | _ :: r => cleanupRev r

/-- Final queue of the cleanup loop. -/
def cleanupLoop (q : List γ) : List γ :=
  (cleanupRev q.reverse).reverse

/-- The default (non-volumized) pdf branch of `mergeImages`
(src/merge.py:185-221): the listing of the staging directory is
natural-sorted, segmented with cap 250, each segment composed into a
temporary pdf, the temporaries composed in order into the final
archive, and the queue of temporaries emptied.  Returns the segments,
the unit order of the final artifact, and the temporaries remaining
after cleanup (`none` only if the segmentation recursion would not
terminate, which cannot happen at cap 250). -/
def mergeImagesDefaultPdf (listing : List String) :
    Option (List (List String) × List String × List (List String)) :=
  (segmentImgsF ((natsorted listing).length + 1) (natsorted listing) 250).map
    (fun imgsSets : List (List String) =>
      (imgsSets,
        (imgsSets.map makeTempPdfContents).foldl (fun acc t => acc ++ t) [],
        cleanupLoop (imgsSets.map makeTempPdfContents)))

/-! ## Volume Grouper (`getVolumes`, src/merge.py:244-275) -/

/-- Python dict assignment `d[k] = v` on an insertion-ordered dict: if
the key is present its value is replaced in place, otherwise the pair is
appended. -/
def dictInsert : List (String × List String) → String → List String →
    List (String × List String)
  | [], k, v => [(k, v)]
  | (k', w) :: d, k, v => if k' = k then (k, v) :: d else (k', w) :: dictInsert d k v

/-- The scan loop of `getVolumes` (src/merge.py:260-274), including the
final `volumes[currentVol] = matches` after the loop.  `search` models
`re.search(pat, ·)[0]`: `none` is a failed match, whose subscript raises
TypeError. -/
def getVolumesLoop (search : String → Option String) :
    List String → String → List String → List (String × List String) →
    Except PyErr (List (String × List String))
  | [], currentVol, ms, volumes => .ok (dictInsert volumes currentVol ms)
  | img :: rest, currentVol, ms, volumes =>
    match search img with
    | none => .error .typeError
    | some imgVol =>
      if imgVol = currentVol then
        getVolumesLoop search rest currentVol (ms ++ [img]) volumes
      else
        getVolumesLoop search rest imgVol [img] (dictInsert volumes currentVol ms)

/-- `getVolumes(dir, args)` (src/merge.py:244-275): natural-sort the
directory listing, take the match of the first name as the initial key
(IndexError on an empty listing, TypeError when the first name does not
match), then scan every name with the loop above. -/
def getVolumes (search : String → Option String) (listing : List String) :
    Except PyErr (List (String × List String)) :=
  match natsorted listing with
  | [] => .error .indexError
  | first :: rest =>
    match search first with
    | none => .error .typeError
    | some v0 => getVolumesLoop search (first :: rest) v0 [] []

/-- The volumize branch of `mergeImages` (src/merge.py:156-180): group
the staged units, then produce one artifact per volume (name and unit
contents).  An exception from `getVolumes` propagates before any
artifact is produced. -/
def mergeImagesVolumize (search : String → Option String) (isPdf : Bool)
    (listing : List String) : Except PyErr (List (String × List String)) :=
  (getVolumes search listing).map (fun volumes =>
    volumes.map (fun v => (v.1, makeVolumeContents isPdf v.2)))

/-! ## Page Transformer (`renameKeepExtension`, `mapExtractedImages`,
`renameImages`, src/merge.py:107-131, 301-350)

Chapter directories and staged units are modelled by their names; the
listing of a chapter directory is a function from the chapter name to
its page names. -/

/-- `renameKeepExtension(origin, destination, n, args)`
(src/merge.py:301-316): the staged copy is named
`<destination>-<n><ext>` where `ext` is the extension of `origin`. -/
def renameKeepExtension (origin destination n : String) : String :=
  destination ++ "-" ++ n ++ pyExt origin

/-- The inner chapter loop of `mapExtractedImages` (src/merge.py:334-347):
the counter starts at 0 and is incremented after each emitted unit. -/
def chapterUnitsLoop (dir : String) : List String → Nat → List String
  | [], _ => []
  | img :: rest, counter =>
    renameKeepExtension img dir (toString counter) :: chapterUnitsLoop dir rest (counter + 1)

/-- `mapExtractedImages(dirs, isPdf, main_dir, args)` in rename mode
(src/merge.py:319-350): for each assigned chapter directory in natural
order, emit one staged unit per page in the natural order of the
chapter's listing.  The returned list is the staged unit names in
creation order. -/
def mapExtractedImages (dirs : List String) (listing : String → List String) :
    List String :=
  (natsorted dirs).flatMap (fun dir => chapterUnitsLoop dir (natsorted (listing dir)) 0)

/-- The inner chapter loop of the unused `renameImages`
(src/merge.py:121-131): the counter is incremented *before* the copy, so
the emitted name of the page with zero-based position `c` carries the
number `c + 1`. -/
def renameImagesChapterLoop (dir : String) : List String → Nat → List String
  | [], _ => []
  | img :: rest, counter =>
    (dir ++ "-" ++ toString (counter + 1) ++ pyExt img) ::
      renameImagesChapterLoop dir rest (counter + 1)

/-! ## A concrete `re.search` instance

`volSearchS` models `re.search(r"Vol [0-9]+", name)[0]`: the leftmost
occurrence of `Vol ` followed by a maximal non-empty digit run. -/

/-- Match the pattern `Vol [0-9]+` at the head of the character list. -/
def volMatchAt : List Char → Option (List Char)
  | 'V' :: 'o' :: 'l' :: ' ' :: rest =>
    let ds := rest.takeWhile Char.isDigit
    if ds = [] then none else some ('V' :: 'o' :: 'l' :: ' ' :: ds)
  | _ => none

/-- Leftmost match of `Vol [0-9]+` in the character list. -/
def volSearch : List Char → Option (List Char)
  | [] => none
  | c :: rest =>
    match volMatchAt (c :: rest) with
    | some m => some m
    | none => volSearch rest

/-- `re.search(r"Vol [0-9]+", s)[0]` as a string function. -/
def volSearchS (s : String) : Option String :=
  (volSearch s.data).map String.mk

/-- All units stored across the value lists of a volumes dict, in order. -/
def volJoin (d : List (String × List String)) : List String :=
  (d.map Prod.snd).flatten

/-! ## Lemmas about the Path Partitioner -/

/-- `natsorted` permutes its input. -/
theorem natsorted_perm (l : List String) : (natsorted l).Perm l :=
  List.perm_insertionSort _ l

theorem length_sliceStep (l : List α) : ∀ (i n : Nat), 1 ≤ n →
    (sliceStep l i n).length = (l.length + (n - 1) - i) / n := by
  induction l with
  | nil =>
    intro i n _
    simp only [sliceStep, List.length_nil]
    exact (Nat.div_eq_of_lt (by omega)).symm
  | cons x xs ih =>
    intro i n hn
    cases i with
    | zero =>
      simp only [sliceStep, List.length_cons, ih (n - 1) n hn]
      have h1 : xs.length + (n - 1) - (n - 1) = xs.length := by omega
      have h2 : xs.length + 1 + (n - 1) - 0 = xs.length + n := by omega
      rw [h1, h2, Nat.add_div_right _ (by omega)]
    | succ i =>
      simp only [sliceStep, List.length_cons, ih i n hn]
      congr 1
      omega

theorem roundRobin_nil_of_forall_nil (gs : List (List α)) (h : ∀ g ∈ gs, g = []) :
    roundRobin gs = [] := by
  induction gs with
  | nil => simp [roundRobin]
  | cons g gs ih =>
    have hg : g = [] := h g (by simp)
    subst hg
    have h2 : roundRobin ([] :: gs) = roundRobin gs := by simp [roundRobin]
    rw [h2]
    exact ih (fun g hg => h g (by simp [hg]))

/-- Interleaving the `n` stride-`n` slices round-robin reconstitutes the
list. -/
theorem roundRobin_sliceStep (n : Nat) (hn : 1 ≤ n) (l : List α) :
    roundRobin ((List.range n).map (fun i => sliceStep l i n)) = l := by
  induction l with
  | nil =>
    apply roundRobin_nil_of_forall_nil
    intro g hg
    simp only [List.mem_map] at hg
    obtain ⟨i, _, rfl⟩ := hg
    rfl
  | cons x xs ih =>
    obtain ⟨m, rfl⟩ : ∃ m, n = m + 1 := ⟨n - 1, by omega⟩
    rw [List.range_succ_eq_map, List.map_cons, List.map_map]
    have h0 : sliceStep (x :: xs) 0 (m + 1) = x :: sliceStep xs m (m + 1) := rfl
    have hsucc : ((fun i => sliceStep (x :: xs) i (m + 1)) ∘ Nat.succ) =
        fun j => sliceStep xs j (m + 1) := by
      funext j
      rfl
    rw [h0, hsucc]
    have hrr : roundRobin ((x :: sliceStep xs m (m + 1)) ::
          (List.range m).map (fun j => sliceStep xs j (m + 1))) =
        x :: roundRobin ((List.range m).map (fun j => sliceStep xs j (m + 1)) ++
          [sliceStep xs m (m + 1)]) := by
      simp [roundRobin]
    rw [hrr]
    have hr : (List.range m).map (fun j => sliceStep xs j (m + 1)) ++
        [sliceStep xs m (m + 1)] =
        (List.range (m + 1)).map (fun j => sliceStep xs j (m + 1)) := by
      rw [List.range_succ, List.map_append]
      rfl
    rw [hr, ih]

/-- C3: for every list `L` and every `P ≥ 1`, the round-robin
interleaving of the `P` groups returned by the Partitioner
(`groupZips`/`groupDirs`) equals `L` exactly, and the sizes of any two
groups differ by at most 1. -/
theorem partitioner_reconstruction (α : Type) (l : List α) (p : Nat) (hp : 1 ≤ p) :
    roundRobin (groupZips l (p : Int)) = l ∧
      ∀ g₁ ∈ groupZips l (p : Int), ∀ g₂ ∈ groupZips l (p : Int),
        g₁.length ≤ g₂.length + 1 := by
  have htn : ((p : Int)).toNat = p := Int.toNat_natCast p
  constructor
  · unfold groupZips
    rw [htn]
    exact roundRobin_sliceStep p hp l
  · intro g₁ hg₁ g₂ hg₂
    unfold groupZips at hg₁ hg₂
    rw [htn] at hg₁ hg₂
    simp only [List.mem_map, List.mem_range] at hg₁ hg₂
    obtain ⟨i, hi, rfl⟩ := hg₁
    obtain ⟨j, hj, rfl⟩ := hg₂
    rw [length_sliceStep l i p hp, length_sliceStep l j p hp]
    have hle : l.length + (p - 1) - i ≤ (l.length + (p - 1) - j) + p := by omega
    calc (l.length + (p - 1) - i) / p
        ≤ ((l.length + (p - 1) - j) + p) / p := Nat.div_le_div_right hle
      _ = (l.length + (p - 1) - j) / p + 1 := Nat.add_div_right _ (by omega)

/-- Witness for C3 at `L = [0,…,6]`, `P = 3`. -/
theorem partitioner_reconstruction_witness :
    1 ≤ 3 ∧
      (roundRobin (groupZips ([0, 1, 2, 3, 4, 5, 6] : List Nat) ((3 : Nat) : Int)) =
          [0, 1, 2, 3, 4, 5, 6] ∧
        ∀ g₁ ∈ groupZips ([0, 1, 2, 3, 4, 5, 6] : List Nat) ((3 : Nat) : Int),
          ∀ g₂ ∈ groupZips ([0, 1, 2, 3, 4, 5, 6] : List Nat) ((3 : Nat) : Int),
            g₁.length ≤ g₂.length + 1) :=
  ⟨by decide, partitioner_reconstruction Nat [0, 1, 2, 3, 4, 5, 6] 3 (by decide)⟩

/-- C6 counterexample: for `P = 0` and `P = -1` the Partitioner returns
the value `[]` — the comprehension over `range(n)` is empty, the slice
expression is never evaluated, and no exception of any kind is raised —
whereas the claim states it fails with a ConfigurationError rather than
returning a value. -/
theorem groupZips_nonpositive_returns_value :
    groupZips ([0] : List Nat) 0 = [] ∧ groupZips ([0] : List Nat) (-1) = [] :=
  ⟨rfl, rfl⟩

/-- C6 amended: the Partitioner has no error conditions for `P ≥ 1`
(it returns exactly `P` groups); for `P ≤ 0` it does not fail either —
it returns an empty list of groups, since the comprehension ranges over
nothing.  No ConfigurationError exists in the code. -/
theorem groupZips_no_error (l : List Nat) (n : Int) :
    (1 ≤ n → (groupZips l n).length = n.toNat) ∧ (n ≤ 0 → groupZips l n = []) := by
  constructor
  · intro _
    simp [groupZips]
  · intro hn
    have h0 : n.toNat = 0 := by omega
    simp [groupZips, h0]

/-- Witness for C6 amended at `n = 3` and `n = -2`. -/
theorem groupZips_no_error_witness :
    ((1 : Int) ≤ 3 ∧ (groupZips ([0, 1] : List Nat) 3).length = (3 : Int).toNat) ∧
      ((-2 : Int) ≤ 0 ∧ groupZips ([0, 1] : List Nat) (-2) = []) :=
  ⟨⟨by decide, (groupZips_no_error [0, 1] 3).1 (by decide)⟩,
    ⟨by decide, (groupZips_no_error [0, 1] (-2)).2 (by decide)⟩⟩

/-! ## Lemmas about the Chunked Merger -/

theorem foldl_append_appended (l : List β) : ∀ acc : PdfWriterState β,
    (l.foldl PdfWriterState.append acc).appended = acc.appended ++ l := by
  induction l with
  | nil => intro acc; simp
  | cons x xs ih => intro acc; simp [PdfWriterState.append, ih]

theorem pdfAppendAll_appended (l : List β) : (pdfAppendAll l).appended = l := by
  simp [pdfAppendAll, foldl_append_appended]

theorem cleanupRev_eq_nil (q : List γ) : cleanupRev q = [] := by
  induction q with
  | nil => rfl
  | cons x r ih => simpa [cleanupRev] using ih

theorem cleanupLoop_eq_nil (q : List γ) : cleanupLoop q = [] := by
  simp [cleanupLoop, cleanupRev_eq_nil]

theorem segmentImgsF_isSome (cap : Int) (hcap : 1 ≤ cap) :
    ∀ (fuel : Nat) (l : List α), l.length < fuel →
      (segmentImgsF fuel l cap).isSome = true := by
  intro fuel
  induction fuel with
  | zero => intro l h; omega
  | succ fuel ih =>
    intro l h
    rw [segmentImgsF]
    by_cases hlen : (l.length : Int) ≤ cap
    · simp [hlen]
    · rw [if_neg hlen]
      have hfrom : pySliceFrom l cap = l.drop cap.toNat := by
        simp [pySliceFrom, if_pos (by omega : (0 : Int) ≤ cap)]
      rw [hfrom]
      have hlt : (l.drop cap.toNat).length < fuel := by
        simp only [List.length_drop]
        omega
      have hsome := ih (l.drop cap.toNat) hlt
      cases hopt : segmentImgsF fuel (l.drop cap.toNat) cap with
      | none => rw [hopt] at hsome; simp at hsome
      | some r => simp [hopt]

theorem segmentImgsF_zero_cap (l : List α) (hl : l ≠ []) :
    ∀ fuel, segmentImgsF fuel l 0 = none := by
  intro fuel
  induction fuel with
  | zero => rfl
  | succ fuel ih =>
    rw [segmentImgsF]
    have hpos : 0 < l.length := List.length_pos.mpr hl
    have hlen : ¬ ((l.length : Int) ≤ 0) := by omega
    rw [if_neg hlen]
    have hfrom : pySliceFrom l 0 = l := by simp [pySliceFrom]
    rw [hfrom, ih]
    rfl

theorem segmentImgsF_nonpos_single (cap : Int) (hcap : cap ≤ 0) (x : α) :
    ∀ fuel, segmentImgsF fuel [x] cap = none := by
  intro fuel
  induction fuel with
  | zero => rfl
  | succ fuel ih =>
    rw [segmentImgsF]
    have hlen : ¬ (((([x] : List α)).length : Int) ≤ cap) := by
      simp only [List.length_singleton]
      omega
    rw [if_neg hlen]
    have hfrom : pySliceFrom [x] cap = [x] := by
      unfold pySliceFrom
      by_cases h0 : (0 : Int) ≤ cap
      · have hc : cap = 0 := by omega
        simp [hc]
      · rw [if_neg h0]
        have ht : ((([x] : List α).length : Int) + cap).toNat = 0 := by
          simp only [List.length_singleton]
          omega
        rw [ht]
        rfl
    rw [hfrom, ih]
    rfl

/-- C9: the recursion of `segmentImgs` terminates for every list and
every `cap ≥ 1` (the list shrinks by `cap` each call, so fuel
`length + 1` suffices), whereas for `cap = 0` on any non-empty list, and
for every `cap ≤ 0` on a singleton list, no amount of fuel reaches the
base case — the Python recursion never terminates. -/
theorem segmentImgs_termination (α : Type) :
    (∀ (l : List α) (cap : Int), 1 ≤ cap →
      (segmentImgsF (l.length + 1) l cap).isSome = true) ∧
    (∀ l : List α, l ≠ [] → ∀ fuel, segmentImgsF fuel l 0 = none) ∧
    (∀ cap : Int, cap ≤ 0 → ∀ (x : α) (fuel : Nat), segmentImgsF fuel [x] cap = none) :=
  ⟨fun l cap hcap => segmentImgsF_isSome cap hcap (l.length + 1) l (by omega),
    fun l hl fuel => segmentImgsF_zero_cap l hl fuel,
    fun cap hcap x fuel => segmentImgsF_nonpos_single cap hcap x fuel⟩

/-- Witness for C9 at concrete inputs. -/
theorem segmentImgs_termination_witness :
    (1 ≤ (2 : Int) ∧ (segmentImgsF (([0, 1, 2] : List Nat).length + 1) [0, 1, 2] 2).isSome = true) ∧
      (([0] : List Nat) ≠ [] ∧ segmentImgsF 7 ([0] : List Nat) 0 = none) ∧
      ((-3 : Int) ≤ 0 ∧ segmentImgsF 5 [(4 : Nat)] (-3) = none) :=
  ⟨⟨by decide, (segmentImgs_termination Nat).1 [0, 1, 2] 2 (by decide)⟩,
    ⟨by decide, (segmentImgs_termination Nat).2.1 [0] (by decide) 7⟩,
    ⟨by decide, (segmentImgs_termination Nat).2.2 (-3) (by decide) 4 5⟩⟩

theorem segmentImgsF_sets_le (cap : Int) (hcap : 0 ≤ cap) :
    ∀ (fuel : Nat) (l : List α) (sets : List (List α)),
      segmentImgsF fuel l cap = some sets → ∀ s ∈ sets, s.length ≤ cap.toNat := by
  intro fuel
  induction fuel with
  | zero => intro l sets h; simp [segmentImgsF] at h
  | succ fuel ih =>
    intro l sets h
    rw [segmentImgsF] at h
    by_cases hlen : (l.length : Int) ≤ cap
    · rw [if_pos hlen] at h
      obtain rfl : [l] = sets := Option.some.inj h
      intro s hs
      simp only [List.mem_singleton] at hs
      subst hs
      omega
    · rw [if_neg hlen] at h
      cases hopt : segmentImgsF fuel (pySliceFrom l cap) cap with
      | none => rw [hopt] at h; simp at h
      | some r =>
        rw [hopt] at h
        simp only [Option.map_some'] at h
        obtain rfl := Option.some.inj h
        intro s hs
        rcases List.mem_cons.mp hs with hs | hs
        · subst hs
          have hto : pySliceTo l cap = l.take cap.toNat := by
            simp [pySliceTo, if_pos hcap]
          rw [hto]
          simp only [List.length_take]
          omega
        · exact ih (pySliceFrom l cap) r hopt s hs

/-- Segmentation of a 600-element list at cap 250: three segments
`take 250`, `take 250 ∘ drop 250`, `drop 250 ∘ drop 250`. -/
theorem segmentImgsF_600 (L : List String) (hL : L.length = 600) :
    segmentImgsF (L.length + 1) L 250 =
      some [L.take 250, (L.drop 250).take 250, (L.drop 250).drop 250] := by
  have hto : ∀ l : List String, pySliceTo l 250 = l.take 250 := fun l => by
    simp [pySliceTo]
  have hfrom : ∀ l : List String, pySliceFrom l 250 = l.drop 250 := fun l => by
    simp [pySliceFrom]
  rw [segmentImgsF]
  have h1 : ¬ ((L.length : Int) ≤ 250) := by omega
  rw [if_neg h1, hfrom, hto, hL]
  rw [show (600 : Nat) = 599 + 1 from rfl, segmentImgsF]
  have hd1 : (L.drop 250).length = 350 := by
    simp [List.length_drop, hL]
  have h2 : ¬ (((L.drop 250).length : Int) ≤ 250) := by
    rw [hd1]
    omega
  rw [if_neg h2, hfrom, hto]
  rw [show (599 : Nat) = 598 + 1 from rfl, segmentImgsF]
  have hd2 : ((L.drop 250).drop 250).length = 100 := by
    simp [List.length_drop, hL]
  have h3 : (((L.drop 250).drop 250).length : Int) ≤ 250 := by
    rw [hd2]
    omega
  rw [if_pos h3]
  rfl

/-- C4: in default (non-volumized) document mode, merging 600 ordered
units with cap 250 splits them into exactly 3 batches of sizes 250, 250,
100 whose concatenation is the ordered unit stream; the intermediate
documents are composed in order into one final artifact that preserves
the full 600-unit order, and the queue of intermediate files is empty
after the final composition. -/
theorem mergeImages_default_600 (listing : List String) (h : listing.length = 600) :
    ∃ s₁ s₂ s₃,
      mergeImagesDefaultPdf listing = some ([s₁, s₂, s₃], natsorted listing, []) ∧
        s₁.length = 250 ∧ s₂.length = 250 ∧ s₃.length = 100 ∧
        s₁ ++ (s₂ ++ s₃) = natsorted listing := by
  have hL : (natsorted listing).length = 600 := by
    rw [(natsorted_perm listing).length_eq, h]
  refine ⟨(natsorted listing).take 250, ((natsorted listing).drop 250).take 250,
    ((natsorted listing).drop 250).drop 250, ?_, ?_, ?_, ?_, ?_⟩
  · unfold mergeImagesDefaultPdf
    rw [segmentImgsF_600 _ hL]
    have hmk : ∀ s : List String, makeTempPdfContents s = s := fun s => by
      simp [makeTempPdfContents, pdfAppendAll_appended]
    simp only [Option.map_some', List.map_cons, List.map_nil, hmk, List.foldl_cons,
      List.foldl_nil, cleanupLoop_eq_nil, List.nil_append]
    rw [List.append_assoc, List.take_append_drop, List.take_append_drop]
  · simp only [List.length_take]
    omega
  · simp only [List.length_take, List.length_drop]
    omega
  · simp only [List.length_drop]
    omega
  · rw [List.take_append_drop, List.take_append_drop]

/-- Witness for C4 at a concrete 600-element listing. -/
theorem mergeImages_default_600_witness :
    (List.replicate 600 "x").length = 600 ∧
      (∃ s₁ s₂ s₃,
        mergeImagesDefaultPdf (List.replicate 600 "x") =
            some ([s₁, s₂, s₃], natsorted (List.replicate 600 "x"), []) ∧
          s₁.length = 250 ∧ s₂.length = 250 ∧ s₃.length = 100 ∧
          s₁ ++ (s₂ ++ s₃) = natsorted (List.replicate 600 "x")) :=
  ⟨by rw [List.length_replicate],
    mergeImages_default_600 (List.replicate 600 "x") (by rw [List.length_replicate])⟩

/-- C7 counterexample: a volumized document merge of a volume holding
251 units composes all 251 of them in one `PdfWriter` — `makeVolume`
batches nothing, so more than 250 units are simultaneously composed for
that single artifact. -/
theorem makeVolume_unbounded_composition :
    (makeVolumePdfWriter (List.replicate 251 "u")).openCount = 251 ∧
      ¬ ((makeVolumePdfWriter (List.replicate 251 "u")).openCount ≤ 250) := by
  have h : (makeVolumePdfWriter (List.replicate 251 "u")).openCount = 251 := by
    simp only [makeVolumePdfWriter, PdfWriterState.openCount, pdfAppendAll_appended,
      List.length_replicate]
  exact ⟨h, by rw [h]; omega⟩

/-- C7 amended: only the default (non-volumized) document merge batches
its composition — every batch it composes holds at most 250 units —
while the volumized document path (`makeVolume`) appends every unit of
the volume into a single composition, holding exactly `imgs.length`
units open, with no cap. -/
theorem merge_batching_amended :
    (∀ (listing : List String) (sets : List (List String)) (archive : List String)
        (rem : List (List String)),
      mergeImagesDefaultPdf listing = some (sets, archive, rem) →
        ∀ s ∈ sets, (pdfAppendAll s).openCount ≤ 250) ∧
    (∀ imgs : List String, (makeVolumePdfWriter imgs).openCount = imgs.length) := by
  constructor
  · intro listing sets archive rem h s hs
    unfold mergeImagesDefaultPdf at h
    obtain ⟨sets0, hseg, htup⟩ := Option.map_eq_some'.mp h
    simp only [Prod.mk.injEq] at htup
    obtain ⟨rfl, -, -⟩ := htup
    have hle := segmentImgsF_sets_le 250 (by omega) _ _ _ hseg s hs
    simp only [PdfWriterState.openCount, pdfAppendAll_appended]
    simpa using hle
  · intro imgs
    simp [makeVolumePdfWriter, PdfWriterState.openCount, pdfAppendAll_appended]

/-- Witness for C7 amended at a one-batch listing and a two-unit volume. -/
theorem merge_batching_amended_witness :
    mergeImagesDefaultPdf ["a"] = some ([["a"]], ["a"], []) ∧
      (pdfAppendAll ["a"]).openCount ≤ 250 ∧
      (makeVolumePdfWriter ["a", "b"]).openCount = (["a", "b"] : List String).length :=
  ⟨rfl, merge_batching_amended.1 ["a"] [["a"]] ["a"] [] rfl ["a"] (by simp),
    merge_batching_amended.2 ["a", "b"]⟩

/-! ## Lemmas about the Volume Grouper -/

theorem volJoin_cons (p : String × List String) (d : List (String × List String)) :
    volJoin (p :: d) = p.2 ++ volJoin d := by
  simp [volJoin]

/-- A dict assignment adds at most the occurrences of the new value list
to the stored units (it replaces — never extends — an existing entry). -/
theorem count_volJoin_dictInsert (u : String) :
    ∀ (d : List (String × List String)) (k : String) (v : List String),
      (volJoin (dictInsert d k v)).count u ≤ (volJoin d).count u + v.count u := by
  intro d
  induction d with
  | nil =>
    intro k v
    simp [dictInsert, volJoin]
  | cons p d ih =>
    intro k v
    obtain ⟨k', w⟩ := p
    by_cases hk : k' = k
    · rw [dictInsert, if_pos hk, volJoin_cons, volJoin_cons]
      simp only [List.count_append]
      omega
    · rw [dictInsert, if_neg hk, volJoin_cons, volJoin_cons]
      simp only [List.count_append]
      have := ih k v
      omega

/-- Invariant of the `getVolumes` scan loop: every unit stored in the
result was stored at entry or read from the remaining input. -/
theorem count_getVolumesLoop (search : String → Option String) (u : String) :
    ∀ (rest : List String) (cur : String) (ms : List String)
      (volumes out : List (String × List String)),
      getVolumesLoop search rest cur ms volumes = .ok out →
      (volJoin out).count u ≤ (volJoin volumes).count u + ms.count u + rest.count u := by
  intro rest
  induction rest with
  | nil =>
    intro cur ms volumes out h
    obtain rfl : dictInsert volumes cur ms = out := Except.ok.inj h
    have := count_volJoin_dictInsert u volumes cur ms
    simp only [List.count_nil]
    omega
  | cons img rest ih =>
    intro cur ms volumes out h
    rw [getVolumesLoop] at h
    cases hs : search img with
    | none => rw [hs] at h; simp at h
    | some v =>
      rw [hs] at h
      dsimp only at h
      rw [show img :: rest = [img] ++ rest from rfl, List.count_append]
      by_cases hv : v = cur
      · rw [if_pos hv] at h
        have hrec := ih cur (ms ++ [img]) volumes out h
        rw [List.count_append] at hrec
        omega
      · rw [if_neg hv] at h
        have hrec := ih v [img] (dictInsert volumes cur ms) out h
        have hins := count_volJoin_dictInsert u volumes cur ms
        omega

/-- C10 counterexample: a non-empty, fully matching listing on which the
value lists of `getVolumes` do *not* contain every listed unit — the
non-contiguous reappearance of key `Vol 3` overwrites the earlier run,
so unit `Vol 3 x`, though listed, occurs zero times across all volumes. -/
theorem getVolumes_drops_units :
    getVolumes volSearchS ["Vol 3 x", "Vol 3 y", "Vol 4 x", "Vol 4 y", "zz Vol 3"] =
        .ok [("Vol 3", ["zz Vol 3"]), ("Vol 4", ["Vol 4 x", "Vol 4 y"])] ∧
      "Vol 3 x" ∈ (["Vol 3 x", "Vol 3 y", "Vol 4 x", "Vol 4 y", "zz Vol 3"] : List String) ∧
      (volJoin [("Vol 3", ["zz Vol 3"]), ("Vol 4", ["Vol 4 x", "Vol 4 y"])]).count "Vol 3 x" = 0 :=
  ⟨rfl, by decide, by decide⟩

/-- C10 amended: `getVolumes` fails with IndexError on an empty listing
(the initial key subscripts the first element); whenever it returns a
mapping, each listed unit appears across the value lists at most as
often as it appears in the listing (so at most once for a duplicate-free
directory listing) — but not necessarily exactly once, since a run whose
key reappears later is overwritten and its units dropped. -/
theorem getVolumes_partition (search : String → Option String) :
    getVolumes search [] = .error .indexError ∧
      ∀ (listing : List String) (out : List (String × List String)),
        getVolumes search listing = .ok out →
        ∀ u : String, (volJoin out).count u ≤ listing.count u := by
  constructor
  · rfl
  · intro listing out h u
    unfold getVolumes at h
    cases himgs : natsorted listing with
    | nil => rw [himgs] at h; simp at h
    | cons first rest =>
      rw [himgs] at h
      dsimp only at h
      cases hs : search first with
      | none => rw [hs] at h; simp at h
      | some v0 =>
        rw [hs] at h
        dsimp only at h
        have hloop := count_getVolumesLoop search u (first :: rest) v0 [] [] out h
        have hcount : (first :: rest).count u = listing.count u := by
          rw [← himgs]
          exact (natsorted_perm listing).count_eq u
        rw [show (volJoin ([] : List (String × List String))).count u = 0 from rfl,
          show (([] : List String)).count u = 0 from rfl] at hloop
        omega

/-- Witness for C10 amended at a one-unit listing. -/
theorem getVolumes_partition_witness :
    getVolumes volSearchS ["Vol 5 a"] = .ok [("Vol 5", ["Vol 5 a"])] ∧
      (volJoin [("Vol 5", ["Vol 5 a"])]).count "Vol 5 a" ≤
        (["Vol 5 a"] : List String).count "Vol 5 a" :=
  ⟨rfl, (getVolumes_partition volSearchS).2 ["Vol 5 a"] [("Vol 5", ["Vol 5 a"])] rfl "Vol 5 a"⟩

/-- C2 counterexample: on a listing none of whose names matches, the
grouper fails with the incidental TypeError of subscripting a failed
match (`None[0]`), which is not a PatternMismatchError raised by an
explicit validation check — no such check exists in the code. -/
theorem pattern_mismatch_not_explicit :
    getVolumes (fun _ => none) ["a"] = .error .typeError ∧
      PyErr.typeError ≠ PyErr.patternMismatchError ∧
      getVolumes (fun _ => none) ["a"] ≠ .error .patternMismatchError := by
  refine ⟨rfl, by decide, ?_⟩
  intro h
  rw [show getVolumes (fun _ => none) ["a"] = .error .typeError from rfl] at h
  injection h with h2
  cases h2

/-- C2 amended: if the supplied pattern matches none of the unit names
(and the listing is non-empty), `getVolumes` fails — with the incidental
TypeError from subscripting the failed first match, not with an explicit
PatternMismatchError — and the volumize merge produces no artifact for
any volume, since the exception propagates before the merge loop. -/
theorem pattern_mismatch_fail_fast (search : String → Option String)
    (listing : List String) (hne : listing ≠ [])
    (hnone : ∀ x ∈ listing, search x = none) :
    getVolumes search listing = .error .typeError ∧
      ∀ isPdf, mergeImagesVolumize search isPdf listing = .error .typeError := by
  have hget : getVolumes search listing = .error .typeError := by
    unfold getVolumes
    cases himgs : natsorted listing with
    | nil =>
      exfalso
      have hlen : listing.length = 0 := by
        rw [← (natsorted_perm listing).length_eq, himgs]
        rfl
      exact hne (List.length_eq_zero.mp hlen)
    | cons first rest =>
      have hf : first ∈ listing := by
        have hmem : first ∈ natsorted listing := by
          rw [himgs]
          exact List.mem_cons_self _ _
        exact (natsorted_perm listing).mem_iff.mp hmem
      dsimp only
      rw [hnone first hf]
  exact ⟨hget, fun isPdf => by unfold mergeImagesVolumize; rw [hget]; rfl⟩

/-- Witness for C2 amended at a one-unit listing and a never-matching
pattern. -/
theorem pattern_mismatch_fail_fast_witness :
    (["chapter one"] : List String) ≠ [] ∧
      (getVolumes (fun _ => none) ["chapter one"] = .error .typeError ∧
        ∀ isPdf, mergeImagesVolumize (fun _ => none) isPdf ["chapter one"] = .error .typeError) :=
  ⟨by simp,
    pattern_mismatch_fail_fast (fun _ => none) ["chapter one"] (by simp) (fun x _ => rfl)⟩

/-- C1 (code bug): on the natural-sorted unit listing
`[Vol 1 a, Vol 1 b, Vol 2 a, Vol 2 b, zzz Vol 1]`, whose key sequence
under the pattern `Vol [0-9]+` is `[Vol 1, Vol 1, Vol 2, Vol 2, Vol 1]`,
`getVolumes` returns a dict of only two volumes: the non-contiguous
reappearance of key `Vol 1` *overwrites* the earlier run instead of
starting a third Volume entry, and units `Vol 1 a`, `Vol 1 b` are
dropped from every volume. -/
theorem getVolumes_overwrites_repeated_key :
    getVolumes volSearchS ["Vol 1 a", "Vol 1 b", "Vol 2 a", "Vol 2 b", "zzz Vol 1"] =
        .ok [("Vol 1", ["zzz Vol 1"]), ("Vol 2", ["Vol 2 a", "Vol 2 b"])] ∧
      (volJoin [("Vol 1", ["zzz Vol 1"]), ("Vol 2", ["Vol 2 a", "Vol 2 b"])]).count "Vol 1 a" = 0 :=
  ⟨rfl, by decide⟩

/-! ## Lemmas about the Page Transformer -/

theorem chapterUnitsLoop_get (dir : String) :
    ∀ (ps : List String) (c i : Nat),
      (chapterUnitsLoop dir ps c).get? i =
        (ps.get? i).map (fun p => dir ++ "-" ++ toString (c + i) ++ pyExt p) := by
  intro ps
  induction ps with
  | nil => intro c i; simp [chapterUnitsLoop]
  | cons x xs ih =>
    intro c i
    cases i with
    | zero => simp [chapterUnitsLoop, renameKeepExtension]
    | succ i =>
      simp only [chapterUnitsLoop, List.get?_cons_succ]
      rw [ih (c + 1) i]
      have hc : c + 1 + i = c + (i + 1) := by omega
      simp [hc]

theorem renameImagesChapterLoop_get (dir : String) :
    ∀ (ps : List String) (c i : Nat),
      (renameImagesChapterLoop dir ps c).get? i =
        (ps.get? i).map (fun p => dir ++ "-" ++ toString (c + i + 1) ++ pyExt p) := by
  intro ps
  induction ps with
  | nil => intro c i; simp [renameImagesChapterLoop]
  | cons x xs ih =>
    intro c i
    cases i with
    | zero => simp [renameImagesChapterLoop]
    | succ i =>
      simp only [renameImagesChapterLoop, List.get?_cons_succ]
      rw [ih (c + 1) i]
      have hc : c + 1 + i = c + (i + 1) := by omega
      simp [hc]

/-- Names that differ only in the digit after the dash are different
strings. -/
theorem dash_one_ne_dash_zero (d e : String) :
    d ++ "-" ++ "1" ++ e ≠ d ++ "-" ++ "0" ++ e := by
  intro h
  have h2 : (d ++ "-" ++ "1" ++ e).data = (d ++ "-" ++ "0" ++ e).data :=
    congrArg String.data h
  simp only [String.data_append, List.append_assoc, List.cons_append,
    List.nil_append] at h2
  have h3 := List.append_cancel_left h2
  injection h3 with _ h4
  injection h4 with h5 _
  cases h5

/-- C5: every emitted unit is named `<chapter>-<index><ext>`: in each
chapter the unit at zero-based position `i` of the natural-sorted page
listing is named with index `i` (indices contiguous from 0, assigned in
natural-sort order), and on chapters `A < B` each holding pages
`p0, p1`, the emitted stream is exactly `A-0, A-1, B-0, B-1`, which the
natural sort of the staging listing preserves. -/
theorem unit_naming :
    (∀ (dir : String) (ps : List String) (i : Nat),
      (chapterUnitsLoop dir ps 0).get? i =
        (ps.get? i).map (fun p => dir ++ "-" ++ toString i ++ pyExt p)) ∧
      mapExtractedImages ["A", "B"] (fun _ => ["p0", "p1"]) = ["A-0", "A-1", "B-0", "B-1"] ∧
      natsorted ["A-0", "A-1", "B-0", "B-1"] = ["A-0", "A-1", "B-0", "B-1"] := by
  refine ⟨fun dir ps i => ?_, rfl, rfl⟩
  simpa using chapterUnitsLoop_get dir ps 0 i

/-- C8: the unused rename path numbers the units of every chapter from
1 (the counter is incremented before the copy), the active path numbers
them from 0, and on every chapter with at least one page the two paths
emit different unit lists. -/
theorem numbering_schemes_inconsistent :
    (∀ (dir : String) (ps : List String) (i : Nat),
      (renameImagesChapterLoop dir ps 0).get? i =
        (ps.get? i).map (fun p => dir ++ "-" ++ toString (i + 1) ++ pyExt p)) ∧
      ∀ (dir : String) (ps : List String), ps ≠ [] →
        renameImagesChapterLoop dir ps 0 ≠ chapterUnitsLoop dir ps 0 := by
  constructor
  · intro dir ps i
    simpa using renameImagesChapterLoop_get dir ps 0 i
  · intro dir ps hne h
    obtain ⟨p, ps', rfl⟩ : ∃ p ps', ps = p :: ps' := by
      cases ps with
      | nil => exact absurd rfl hne
      | cons p ps' => exact ⟨p, ps', rfl⟩
    have h0 := congrArg (fun l => l.get? 0) h
    simp only [renameImagesChapterLoop_get dir _ 0 0, chapterUnitsLoop_get dir _ 0 0,
      List.get?_cons_zero, Option.map_some'] at h0
    have h1 : toString (0 + 0 + 1) = "1" := rfl
    have h2 : toString (0 + 0) = "0" := rfl
    rw [h1, h2] at h0
    exact dash_one_ne_dash_zero dir (pyExt p) (Option.some.inj h0)

/-- Witness for C8 at a one-page chapter. -/
theorem numbering_schemes_inconsistent_witness :
    (["p"] : List String) ≠ [] ∧
      renameImagesChapterLoop "A" ["p"] 0 ≠ chapterUnitsLoop "A" ["p"] 0 :=
  ⟨by simp, numbering_schemes_inconsistent.2 "A" ["p"] (by simp)⟩

end CbzMerger
